import Mathlib

/-!
Verification of the send repository's chunk-transfer core against its
specification.  The Python source is shallowly embedded: files are byte
lists (`List Nat`), file systems and server tables are association lists,
and each Python function of interest becomes an executable Lean function
translated line by line from the source.

Source files modelled here:
  - src/engine/chunk_manager.py   (ChunkManager)
  - src/backend/relay_server.py   (relay chunk store endpoints)
  - src/backend/signaling_server.py (pairing codes / rooms)
  - src/engine/transfer_engine.py (upload retry discipline)
  - src/dist1/SendAnywhere/_internal/config.py (constants)
-/

namespace Send

/-! Configuration constants, from config.py. -/

def CHUNK_SIZE_LAN : Nat := 2 * 1024 * 1024

def CHUNK_SIZE_WEBRTC : Nat := 512 * 1024

def CHUNK_SIZE_RELAY : Nat := 1 * 1024 * 1024

def MAX_PARALLEL_CHUNKS : Nat := 5

def MAX_RETRY_ATTEMPTS : Nat := 3

def RETRY_DELAY : Nat := 2

def PAIR_CODE_LENGTH : Nat := 6

def PAIR_CODE_EXPIRY : Nat := 3600

/-! ChunkManager (src/engine/chunk_manager.py).

A file on disk is `Option (List Nat)`: `none` when the path does not
exist, `some contents` otherwise.  `cs` stands for the manager's
`self.chunk_size` field, resolved from the mode by `get_chunk_size`. -/

def get_chunk_size (mode : String) : Nat :=
  if mode = "lan" then CHUNK_SIZE_LAN
  else if mode = "webrtc" then CHUNK_SIZE_WEBRTC
  else CHUNK_SIZE_RELAY

/-- The slice of `orig` holding chunk `chunk_id`: in create_file_manifest
this is the successive `f.read(self.chunk_size)` result, and it is also
exactly what read_chunk returns on the full file `orig`. -/
def chunk_data (cs : Nat) (orig : List Nat) (chunk_id : Nat) : List Nat :=
  (orig.drop (chunk_id * cs)).take cs

/-- totalChunks as computed in create_file_manifest:
`(file_size + self.chunk_size - 1) // self.chunk_size`. -/
def total_chunks_of (cs size : Nat) : Nat := (size + cs - 1) / cs

/-- read_chunk: `open` raises FileNotFoundError on a missing path;
otherwise seek to `chunk_id * cs` and read up to `cs` bytes (a Python
read past EOF returns the empty byte string, it does not raise). -/
def read_chunk (cs : Nat) (file : Option (List Nat)) (chunk_id : Nat) :
    Except String (List Nat) :=
  match file with
  | none => Except.error "FileNotFoundError"
  | some contents => Except.ok ((contents.drop (chunk_id * cs)).take cs)

/-- write_chunk: open with mode wb (fresh empty file) when the path is
absent, r+b (keep existing bytes) when present, seek to
`chunk_id * cs` and write `data` there.  Seeking past EOF and writing
zero-fills the gap, which the `List.replicate` padding models. -/
def write_chunk (cs : Nat) (file : Option (List Nat)) (chunk_id : Nat)
    (data : List Nat) : List Nat :=
  let contents := file.getD []
  let offset := chunk_id * cs
  let padded := contents ++ List.replicate (offset - contents.length) 0
  padded.take offset ++ data ++ padded.drop (offset + data.length)

/-- get_missing_chunks: all ids when the file is absent, otherwise
`range(file_size // cs, total_chunks)` (`List.range' a (b - a)` is the
Python `range(a, b)`). -/
def get_missing_chunks (cs : Nat) (file : Option Nat) (total_chunks : Nat) :
    List Nat :=
  match file with
  | none => List.range total_chunks
  | some size =>
    List.range' (size / cs) (total_chunks - size / cs)

/-- Folding write_chunk over a list of chunk ids, each id written with
the corresponding slice of `orig` (the downloader's behaviour once every
chunk arrives intact, in arrival order `order`). -/
def write_all (cs : Nat) (orig : List Nat) (order : List Nat)
    (init : List Nat) : List Nat :=
  order.foldl (fun f chunk_id =>
    write_chunk cs (some f) chunk_id (chunk_data cs orig chunk_id)) init

/-! Byte-level view of files: `byteAt l i` is byte `i`, reading 0 past
the end (matching the zero fill of sparse writes). -/

def byteAt (l : List Nat) (i : Nat) : Nat := l.getD i 0

theorem byteAt_nil (i : Nat) : byteAt [] i = 0 := rfl

theorem byteAt_append (l l' : List Nat) (i : Nat) :
    byteAt (l ++ l') i = if i < l.length then byteAt l i else byteAt l' (i - l.length) := by
  induction l generalizing i with
  | nil => simp [byteAt]
  | cons a t ih =>
    cases i with
    | zero => simp [byteAt]
    | succ n =>
      simp only [List.cons_append, byteAt, List.getD_cons_succ, List.length_cons]
      rw [show (t ++ l').getD n 0 = byteAt (t ++ l') n from rfl, ih]
      simp [byteAt, Nat.succ_sub_succ]

theorem byteAt_take (l : List Nat) (n i : Nat) :
    byteAt (l.take n) i = if i < n then byteAt l i else 0 := by
  induction l generalizing n i with
  | nil => simp [byteAt]
  | cons a t ih =>
    cases n with
    | zero => simp [byteAt]
    | succ m =>
      cases i with
      | zero => simp [byteAt]
      | succ j =>
        simp only [List.take_succ_cons, byteAt, List.getD_cons_succ]
        rw [show (t.take m).getD j 0 = byteAt (t.take m) j from rfl, ih]
        simp [byteAt]

theorem byteAt_drop (l : List Nat) (n i : Nat) :
    byteAt (l.drop n) i = byteAt l (n + i) := by
  induction l generalizing n with
  | nil => simp [byteAt]
  | cons a t ih =>
    cases n with
    | zero => simp
    | succ m =>
      simp only [List.drop_succ_cons, byteAt, List.getD_cons_succ]
      rw [show (t.drop m).getD i 0 = byteAt (t.drop m) i from rfl, ih]
      simp [byteAt, show m + 1 + i = m + i + 1 from by omega]

theorem byteAt_replicate (n i : Nat) : byteAt (List.replicate n 0) i = 0 := by
  induction n generalizing i with
  | zero => simp [byteAt]
  | succ m ih =>
    cases i with
    | zero => simp [byteAt]
    | succ j =>
      simp only [List.replicate_succ, byteAt, List.getD_cons_succ]
      exact ih j

theorem byteAt_oob (l : List Nat) (i : Nat) (h : l.length ≤ i) : byteAt l i = 0 :=
  List.getD_eq_default _ _ h

/-! Characterisation of a single positioned write. -/

theorem write_chunk_length (cs : Nat) (f data : List Nat) (chunk_id : Nat) :
    (write_chunk cs (some f) chunk_id data).length =
      max f.length (chunk_id * cs + data.length) := by
  simp only [write_chunk, Option.getD_some, List.length_append, List.length_take,
    List.length_drop, List.length_replicate]
  omega

theorem byteAt_write_chunk (cs : Nat) (f data : List Nat) (chunk_id i : Nat) :
    byteAt (write_chunk cs (some f) chunk_id data) i =
      if chunk_id * cs ≤ i ∧ i < chunk_id * cs + data.length
      then byteAt data (i - chunk_id * cs)
      else byteAt f i := by
  have hpad : ∀ j, byteAt (f ++ List.replicate (chunk_id * cs - f.length) 0) j = byteAt f j := by
    intro j
    rw [byteAt_append]
    by_cases hj : j < f.length
    · simp [hj]
    · simp only [hj, if_false]
      rw [byteAt_replicate, byteAt_oob f j (by omega)]
  have hpadlen : (f ++ List.replicate (chunk_id * cs - f.length) 0).length =
      max f.length (chunk_id * cs) := by
    simp [List.length_append, List.length_replicate]
    omega
  simp only [write_chunk, Option.getD_some]
  rw [List.append_assoc, byteAt_append]
  rw [List.length_take, hpadlen]
  by_cases h1 : i < min (chunk_id * cs) (max f.length (chunk_id * cs))
  · have hi : i < chunk_id * cs := by omega
    simp only [h1, if_true]
    rw [byteAt_take]
    simp only [hi, if_true]
    rw [hpad]
    have : ¬ (chunk_id * cs ≤ i ∧ i < chunk_id * cs + data.length) := by omega
    simp [this]
  · have hi : chunk_id * cs ≤ i := by omega
    have hmin : min (chunk_id * cs) (max f.length (chunk_id * cs)) = chunk_id * cs := by omega
    simp only [h1, if_false]
    rw [hmin, byteAt_append]
    by_cases h2 : i - chunk_id * cs < data.length
    · simp only [h2, if_true]
      have : chunk_id * cs ≤ i ∧ i < chunk_id * cs + data.length := by omega
      simp [this]
    · simp only [h2, if_false]
      rw [byteAt_drop, hpad]
      have harg : chunk_id * cs + data.length + (i - chunk_id * cs - data.length) = i := by omega
      rw [harg]
      have : ¬ (chunk_id * cs ≤ i ∧ i < chunk_id * cs + data.length) := by omega
      simp [this]

/-- Bytes inside the slice of chunk `chunk_id` are bytes of `orig`. -/
theorem byteAt_chunk_data (cs : Nat) (orig : List Nat) (chunk_id j : Nat)
    (h : j < (chunk_data cs orig chunk_id).length) :
    byteAt (chunk_data cs orig chunk_id) j = byteAt orig (chunk_id * cs + j) := by
  have hj : j < cs := by
    simp only [chunk_data, List.length_take, List.length_drop] at h
    omega
  simp only [chunk_data]
  rw [byteAt_take]
  simp only [hj, if_true]
  rw [byteAt_drop]

/-! Behaviour of a whole sequence of chunk writes. -/

theorem byteAt_write_all (cs : Nat) (orig : List Nat) (order : List Nat)
    (init : List Nat) (i : Nat) :
    byteAt (write_all cs orig order init) i =
      if ∃ chunk_id ∈ order, chunk_id * cs ≤ i ∧
          i < chunk_id * cs + (chunk_data cs orig chunk_id).length
      then byteAt orig i
      else byteAt init i := by
  induction order generalizing init with
  | nil => simp [write_all]
  | cons c rest ih =>
    have hstep : write_all cs orig (c :: rest) init =
        write_all cs orig rest (write_chunk cs (some init) c (chunk_data cs orig c)) := rfl
    rw [hstep, ih]
    by_cases hrest : ∃ chunk_id ∈ rest, chunk_id * cs ≤ i ∧
        i < chunk_id * cs + (chunk_data cs orig chunk_id).length
    · have hcons : ∃ chunk_id ∈ c :: rest, chunk_id * cs ≤ i ∧
          i < chunk_id * cs + (chunk_data cs orig chunk_id).length := by
        obtain ⟨d, hd, hcond⟩ := hrest
        exact ⟨d, List.mem_cons_of_mem c hd, hcond⟩
      rw [if_pos hrest, if_pos hcons]
    · rw [if_neg hrest, byteAt_write_chunk]
      by_cases hc : c * cs ≤ i ∧ i < c * cs + (chunk_data cs orig c).length
      · have hcons : ∃ chunk_id ∈ c :: rest, chunk_id * cs ≤ i ∧
            i < chunk_id * cs + (chunk_data cs orig chunk_id).length :=
          ⟨c, List.mem_cons_self c rest, hc⟩
        rw [if_pos hc, if_pos hcons]
        rw [byteAt_chunk_data cs orig c (i - c * cs) (by omega)]
        congr 1
        omega
      · have hcons : ¬ ∃ chunk_id ∈ c :: rest, chunk_id * cs ≤ i ∧
            i < chunk_id * cs + (chunk_data cs orig chunk_id).length := by
          rintro ⟨d, hd, hcond⟩
          rcases List.mem_cons.mp hd with h | h
          · exact hc (h ▸ hcond)
          · exact hrest ⟨d, h, hcond⟩
        rw [if_neg hc, if_neg hcons]

theorem write_all_length (cs : Nat) (orig : List Nat) (order : List Nat)
    (init : List Nat) :
    (write_all cs orig order init).length =
      order.foldl
        (fun m chunk_id => max m (chunk_id * cs + (chunk_data cs orig chunk_id).length))
        init.length := by
  induction order generalizing init with
  | nil => rfl
  | cons c rest ih =>
    have hstep : write_all cs orig (c :: rest) init =
        write_all cs orig rest (write_chunk cs (some init) c (chunk_data cs orig c)) := rfl
    rw [hstep, ih, List.foldl_cons, write_chunk_length]

theorem foldl_max_le {g : Nat → Nat} {b : Nat} :
    ∀ (l : List Nat) (a : Nat), a ≤ b → (∀ x ∈ l, g x ≤ b) →
      l.foldl (fun m x => max m (g x)) a ≤ b := by
  intro l
  induction l with
  | nil => intro a ha _; exact ha
  | cons c rest ih =>
    intro a ha hall
    rw [List.foldl_cons]
    exact ih _ (by
      have := hall c (List.mem_cons_self c rest)
      omega)
      (fun x hx => hall x (List.mem_cons_of_mem c hx))

theorem le_foldl_max {g : Nat → Nat} :
    ∀ (l : List Nat) (a : Nat), a ≤ l.foldl (fun m x => max m (g x)) a := by
  intro l
  induction l with
  | nil => intro a; exact Nat.le_refl a
  | cons c rest ih =>
    intro a
    rw [List.foldl_cons]
    exact Nat.le_trans (Nat.le_max_left a (g c)) (ih _)

theorem foldl_max_mem {g : Nat → Nat} {x : Nat} :
    ∀ (l : List Nat) (a : Nat), x ∈ l → g x ≤ l.foldl (fun m y => max m (g y)) a := by
  intro l
  induction l with
  | nil => intro a hx; cases hx
  | cons c rest ih =>
    intro a hx
    rw [List.foldl_cons]
    rcases List.mem_cons.mp hx with h | h
    · subst h
      exact Nat.le_trans (Nat.le_max_right a (g x)) (le_foldl_max rest _)
    · exact ih _ h

/-! Arithmetic facts about totalChunks = ceil(size / cs). -/

theorem size_le_mul_total_chunks (cs size : Nat) (h : 0 < cs) :
    size ≤ cs * total_chunks_of cs size := by
  unfold total_chunks_of
  have h1 := Nat.div_add_mod (size + cs - 1) cs
  have h2 : (size + cs - 1) % cs < cs := Nat.mod_lt _ h
  omega

theorem offset_lt_size_of_lt_total (cs size chunk_id : Nat) (h : 0 < cs)
    (hid : chunk_id < total_chunks_of cs size) : chunk_id * cs < size := by
  unfold total_chunks_of at hid
  have h1 := Nat.div_add_mod (size + cs - 1) cs
  have h2 : (size + cs - 1) % cs < cs := Nat.mod_lt _ h
  have h3 : chunk_id + 1 ≤ (size + cs - 1) / cs := hid
  have h4 : (chunk_id + 1) * cs ≤ ((size + cs - 1) / cs) * cs :=
    Nat.mul_le_mul_right cs h3
  have h5 : (chunk_id + 1) * cs = chunk_id * cs + cs := by ring
  have h6 : ((size + cs - 1) / cs) * cs = cs * ((size + cs - 1) / cs) :=
    Nat.mul_comm _ _
  omega

theorem div_lt_total_chunks (cs size i : Nat) (h : 0 < cs) (hi : i < size) :
    i / cs < total_chunks_of cs size := by
  by_contra hc
  push_neg at hc
  have h1 : total_chunks_of cs size * cs ≤ (i / cs) * cs := Nat.mul_le_mul_right cs hc
  have h2 : (i / cs) * cs ≤ i := Nat.div_mul_le_self i cs
  have h3 := size_le_mul_total_chunks cs size h
  have h4 : cs * total_chunks_of cs size = total_chunks_of cs size * cs := Nat.mul_comm _ _
  omega

theorem eq_of_byteAt (l l' : List Nat) (hlen : l.length = l'.length)
    (h : ∀ i, byteAt l i = byteAt l' i) : l = l' := by
  apply List.ext_getElem hlen
  intro i h1 h2
  have hb := h i
  rwa [byteAt, byteAt, List.getD_eq_getElem l 0 h1, List.getD_eq_getElem l' 0 h2] at hb

/-- Claim C1: writing every chunk id `0..totalChunks-1` of a file, in any
order, with each id carrying the original bytes of that chunk, rebuilds
the original file exactly; moreover a single write_chunk places its data
at offset `chunk_id * chunkSize` and leaves every byte outside the
written region unchanged. -/
theorem chunk_write_read_round_trip (cs : Nat) (orig : List Nat) (order : List Nat)
    (hcs : 0 < cs)
    (hperm : order.Perm (List.range (total_chunks_of cs orig.length))) :
    write_all cs orig order [] = orig ∧
    (∀ (f data : List Nat) (chunk_id i : Nat),
      (chunk_id * cs ≤ i → i < chunk_id * cs + data.length →
        byteAt (write_chunk cs (some f) chunk_id data) i = byteAt data (i - chunk_id * cs)) ∧
      ((i < chunk_id * cs ∨ chunk_id * cs + data.length ≤ i) →
        byteAt (write_chunk cs (some f) chunk_id data) i = byteAt f i)) := by
  have hmemiff : ∀ chunk_id, chunk_id ∈ order ↔
      chunk_id < total_chunks_of cs orig.length := by
    intro chunk_id
    rw [hperm.mem_iff, List.mem_range]
  have hendle : ∀ chunk_id ∈ order,
      chunk_id * cs + (chunk_data cs orig chunk_id).length ≤ orig.length := by
    intro chunk_id hid
    have hlt : chunk_id * cs < orig.length :=
      offset_lt_size_of_lt_total cs orig.length chunk_id hcs ((hmemiff chunk_id).1 hid)
    have hlen : (chunk_data cs orig chunk_id).length =
        min cs (orig.length - chunk_id * cs) := by
      simp [chunk_data]
    omega
  constructor
  · apply eq_of_byteAt
    · rw [write_all_length]
      apply Nat.le_antisymm
      · exact foldl_max_le order _ (Nat.zero_le _) hendle
      · by_cases h0 : orig.length = 0
        · rw [h0]; exact Nat.zero_le _
        · have htpos : 0 < total_chunks_of cs orig.length := by
            by_contra hc
            push_neg at hc
            have h1 := size_le_mul_total_chunks cs orig.length hcs
            have h2 : total_chunks_of cs orig.length = 0 := by omega
            rw [h2, Nat.mul_zero] at h1
            omega
          obtain ⟨t', ht'⟩ : ∃ t', total_chunks_of cs orig.length = t' + 1 :=
            ⟨total_chunks_of cs orig.length - 1, by omega⟩
          have hidmem : t' ∈ order := (hmemiff _).2 (by omega)
          have h1 : t' * cs < orig.length :=
            offset_lt_size_of_lt_total cs orig.length _ hcs (by omega)
          have h2 := size_le_mul_total_chunks cs orig.length hcs
          rw [ht', Nat.mul_succ] at h2
          have h3 : (chunk_data cs orig t').length =
              min cs (orig.length - t' * cs) := by
            simp [chunk_data]
          have h4 : t' * cs + (chunk_data cs orig t').length ≤
              List.foldl
                (fun m chunk_id =>
                  max m (chunk_id * cs + (chunk_data cs orig chunk_id).length))
                ([] : List Nat).length order :=
            foldl_max_mem
              (g := fun chunk_id => chunk_id * cs + (chunk_data cs orig chunk_id).length)
              order (([] : List Nat)).length hidmem
          refine Nat.le_trans ?_ h4
          have h6 : t' * cs = cs * t' := Nat.mul_comm _ _
          omega
    · intro i
      rw [byteAt_write_all]
      by_cases hi : i < orig.length
      · have hdiv := Nat.div_add_mod i cs
        have hmod : i % cs < cs := Nat.mod_lt _ hcs
        have hidlt : i / cs < total_chunks_of cs orig.length :=
          div_lt_total_chunks cs orig.length i hcs hi
        have hofle : (i / cs) * cs ≤ i := Nat.div_mul_le_self i cs
        have hcov : ∃ chunk_id ∈ order, chunk_id * cs ≤ i ∧
            i < chunk_id * cs + (chunk_data cs orig chunk_id).length := by
          refine ⟨i / cs, (hmemiff _).2 hidlt, hofle, ?_⟩
          have hlen : (chunk_data cs orig (i / cs)).length =
              min cs (orig.length - (i / cs) * cs) := by
            simp [chunk_data]
          have hcm : cs * (i / cs) = (i / cs) * cs := Nat.mul_comm _ _
          omega
        rw [if_pos hcov]
      · have hncov : ¬ ∃ chunk_id ∈ order, chunk_id * cs ≤ i ∧
            i < chunk_id * cs + (chunk_data cs orig chunk_id).length := by
          rintro ⟨d, hd, _, h2⟩
          exact absurd (Nat.lt_of_lt_of_le h2 (hendle d hd)) hi
        rw [if_neg hncov, byteAt_nil, byteAt_oob orig i (by omega)]
  · intro f data chunk_id i
    constructor
    · intro hlo hhi
      rw [byteAt_write_chunk, if_pos ⟨hlo, hhi⟩]
    · intro hout
      rw [byteAt_write_chunk, if_neg (by omega)]

theorem chunk_write_read_round_trip_witness :
    0 < 2 ∧
    ([2, 0, 1] : List Nat).Perm
      (List.range (total_chunks_of 2 ([9, 8, 7, 6, 5] : List Nat).length)) ∧
    write_all 2 [9, 8, 7, 6, 5] [2, 0, 1] [] = [9, 8, 7, 6, 5] :=
  ⟨by decide, by decide,
    (chunk_write_read_round_trip 2 [9, 8, 7, 6, 5] [2, 0, 1] (by decide) (by decide)).1⟩

/-- Claim C2 counterexample: with an existing file of exactly one
chunk-size of bytes and `total = 0`, get_missing_chunks returns the
empty list even though `floor(size / chunkSize) = 1 ≠ 0 = total`,
refuting the stated "empty iff floor(size/chunkSize) == total". -/
theorem missing_chunks_claim_counterexample :
    get_missing_chunks CHUNK_SIZE_RELAY (some CHUNK_SIZE_RELAY) 0 = [] ∧
    CHUNK_SIZE_RELAY / CHUNK_SIZE_RELAY ≠ 0 := by
  refine ⟨?_, by decide⟩
  have h : CHUNK_SIZE_RELAY / CHUNK_SIZE_RELAY = 1 := by decide
  simp [get_missing_chunks, h]

/-- Claim C2 (amended): when the file is absent every id `0..total-1` is
missing; when the file is present the result is empty iff
`floor(size/chunkSize) ≥ total`, and an id is in the result exactly when
it lies in the contiguous range `[floor(size/chunkSize), total)`. -/
theorem missing_chunks_amended (cs size total : Nat) :
    get_missing_chunks cs none total = List.range total ∧
    (get_missing_chunks cs (some size) total = [] ↔ total ≤ size / cs) ∧
    (∀ i, i ∈ get_missing_chunks cs (some size) total ↔
      size / cs ≤ i ∧ i < total) := by
  refine ⟨rfl, ?_, ?_⟩
  · simp only [get_missing_chunks]
    rw [List.range'_eq_nil]
    omega
  · intro i
    simp only [get_missing_chunks]
    rw [List.mem_range'_1]
    omega

theorem missing_chunks_amended_witness :
    get_missing_chunks 4 (some 9) 5 = [] ↔ 5 ≤ 9 / 4 :=
  (missing_chunks_amended 4 9 5).2.1

/-- Claim C6 counterexample: the file `[1]` exists but is shorter than
the offset `1 * CHUNK_SIZE_RELAY`, yet read_chunk succeeds with the
empty byte string instead of failing with an IOFailure. -/
theorem read_chunk_short_file_counterexample :
    read_chunk CHUNK_SIZE_RELAY (some [1]) 1 = Except.ok [] ∧
    ([1] : List Nat).length < 1 * CHUNK_SIZE_RELAY := by
  have h : ([1] : List Nat).drop (1 * CHUNK_SIZE_RELAY) = [] :=
    List.drop_eq_nil_of_le (by norm_num [CHUNK_SIZE_RELAY])
  refine ⟨?_, by norm_num [CHUNK_SIZE_RELAY]⟩
  simp only [read_chunk, h, List.take_nil]

/-- Claim C6 (amended): read_chunk fails (FileNotFoundError) only when
the file is absent; on an existing file it returns the slice starting at
`chunk_id * cs`: `min cs (length - offset)` bytes, byte `j` of the chunk
being byte `offset + j` of the file, and in particular the empty byte
string, not an error, whenever the file is no longer than the offset. -/
theorem read_chunk_amended (cs : Nat) (contents : List Nat) (chunk_id : Nat) :
    read_chunk cs none chunk_id = Except.error "FileNotFoundError" ∧
    read_chunk cs (some contents) chunk_id = Except.ok (chunk_data cs contents chunk_id) ∧
    (chunk_data cs contents chunk_id).length = min cs (contents.length - chunk_id * cs) ∧
    (∀ j, j < (chunk_data cs contents chunk_id).length →
      byteAt (chunk_data cs contents chunk_id) j = byteAt contents (chunk_id * cs + j)) ∧
    (contents.length ≤ chunk_id * cs → chunk_data cs contents chunk_id = []) := by
  refine ⟨rfl, rfl, ?_, ?_, ?_⟩
  · simp [chunk_data]
  · exact fun j hj => byteAt_chunk_data cs contents chunk_id j hj
  · intro h
    simp [chunk_data, List.drop_eq_nil_of_le h]

theorem read_chunk_amended_witness :
    ([9] : List Nat).length ≤ 3 * 2 ∧ chunk_data 2 [9] 3 = [] :=
  ⟨by decide, (read_chunk_amended 2 [9] 3).2.2.2.2 (by decide)⟩

/-! Association lists standing in for Python dicts and for directories
of files: lookup finds the first binding; assignment shadows. -/

def assoc {κ α : Type} [DecidableEq κ] : List (κ × α) → κ → Option α
  | [], _ => none
  | (k, v) :: rest, key => if key = k then some v else assoc rest key

def assocSet {κ α : Type} [DecidableEq κ] (l : List (κ × α)) (k : κ) (v : α) :
    List (κ × α) :=
  (k, v) :: l

theorem assoc_assocSet_self {κ α : Type} [DecidableEq κ]
    (l : List (κ × α)) (k : κ) (v : α) : assoc (assocSet l k v) k = some v := by
  simp [assoc, assocSet]

/-! Relay server (src/backend/relay_server.py).

Storage is `uploads/transfer_id/chunks/chunk_id`; a transfer exists iff
its directory does, and since chunk files live inside it, a stored chunk
implies an existing transfer.  The state maps each transfer id to the
map of its uploaded chunk bodies.  HTTP failures are HTTPException
values: a status code and a detail string. -/

structure HttpError where
  status : Nat
  detail : String
deriving DecidableEq, Repr

def RelayState : Type := List (String × List (Nat × List Nat))

structure UploadResult where
  chunk_id : Nat
  hash : String
  size : Nat
deriving DecidableEq, Repr

/-- f-string detail of the transfer-unknown 404 in download_chunk. -/
def transfer_not_found_detail (transfer_id : String) : String :=
  "Transfer " ++ transfer_id ++ " not found"

/-- f-string detail of the chunk-pending 404 in download_chunk. -/
def chunk_pending_detail (chunk_id : Nat) : String :=
  "Chunk " ++ toString chunk_id ++
    " not yet uploaded. Please wait for sender to complete upload."

/-- The `except Exception as e: raise HTTPException(500, context + str(e))`
pattern: every exception of the try body, HTTPException included, is
replaced by a 500 whose detail wraps `str(e)` (Starlette renders an
HTTPException as `status: detail`). -/
def wrap_exception {α : Type} (context : String) (r : Except HttpError α) :
    Except HttpError α :=
  match r with
  | Except.ok a => Except.ok a
  | Except.error e =>
    Except.error ⟨500, context ++ ": " ++ toString e.status ++ ": " ++ e.detail⟩

/-- Body of the upload_chunk endpoint: 404 when the chunk directory is
absent, otherwise save the body verbatim and answer with its sha256 and
length.  `sha256` is the digest function, kept abstract. -/
def upload_chunk_body (sha256 : List Nat → String) (st : RelayState)
    (transfer_id : String) (chunk_id : Nat) (content : List Nat) :
    Except HttpError (RelayState × UploadResult) :=
  match assoc st transfer_id with
  | none => Except.error ⟨404, "Transfer not found"⟩
  | some chunks =>
    Except.ok (assocSet st transfer_id (assocSet chunks chunk_id content),
      ⟨chunk_id, sha256 content, content.length⟩)

/-- The upload_chunk endpoint as served: its try body is guarded only by
`except Exception`, so the 404 raised inside is rewrapped as a 500. -/
def upload_chunk (sha256 : List Nat → String) (st : RelayState)
    (transfer_id : String) (chunk_id : Nat) (content : List Nat) :
    Except HttpError (RelayState × UploadResult) :=
  wrap_exception "Failed to upload chunk"
    (upload_chunk_body sha256 st transfer_id chunk_id content)

/-- The download_chunk endpoint: missing chunk file distinguishes a
missing transfer directory (transfer-unknown 404) from a transfer that
exists without that chunk (chunk-pending 404); here the endpoint
re-raises HTTPException unchanged before the generic handler. -/
def download_chunk (st : RelayState) (transfer_id : String) (chunk_id : Nat) :
    Except HttpError (List Nat) :=
  match assoc st transfer_id with
  | none => Except.error ⟨404, transfer_not_found_detail transfer_id⟩
  | some chunks =>
    match assoc chunks chunk_id with
    | none => Except.error ⟨404, chunk_pending_detail chunk_id⟩
    | some bytes => Except.ok bytes

/-- Claim C3: uploading a chunk of a transfer that does not exist is
meant to fail NotFound (404), but the endpoint's blanket
`except Exception` handler swallows its own HTTPException(404) and
answers 500 for any chunk id and payload. -/
theorem upload_chunk_missing_transfer_is_500 (sha256 : List Nat → String)
    (chunk_id : Nat) (content : List Nat) :
    upload_chunk sha256 [] "t0" chunk_id content =
      Except.error ⟨500, "Failed to upload chunk: 404: Transfer not found"⟩ :=
  rfl

/-- The two download-failure reasons can never collide: the
transfer-unknown detail ends in the letter d, the chunk-pending detail
in a full stop. -/
theorem detail_strings_distinct (transfer_id : String) (chunk_id : Nat) :
    transfer_not_found_detail transfer_id ≠ chunk_pending_detail chunk_id := by
  intro h
  have hd := congrArg String.data h
  rw [transfer_not_found_detail, chunk_pending_detail,
    String.data_append, String.data_append, String.data_append,
    String.data_append] at hd
  have h1 : (("Transfer ".data ++ transfer_id.data) ++ " not found".data).getLast? =
      some (Char.ofNat 100) := by
    rw [List.getLast?_append_of_ne_nil _ (by decide)]
    decide
  have h2 : (("Chunk ".data ++ (toString chunk_id).data) ++
      " not yet uploaded. Please wait for sender to complete upload.".data).getLast? =
      some (Char.ofNat 46) := by
    rw [List.getLast?_append_of_ne_nil _ (by decide)]
    decide
  rw [hd] at h1
  rw [h1] at h2
  exact absurd (Option.some.inj h2) (by decide)

/-- Claim C4: download_chunk returns the stored bytes when present, and
otherwise fails 404 with exactly one of two distinguished reasons:
transfer-unknown when the transfer does not exist, chunk-pending when
the transfer exists but the chunk was not yet uploaded. -/
theorem download_chunk_distinguishes_reasons (st : RelayState)
    (transfer_id : String) (chunk_id : Nat) :
    (∀ chunks bytes, assoc st transfer_id = some chunks →
      assoc chunks chunk_id = some bytes →
      download_chunk st transfer_id chunk_id = Except.ok bytes) ∧
    (assoc st transfer_id = none →
      download_chunk st transfer_id chunk_id =
        Except.error ⟨404, transfer_not_found_detail transfer_id⟩) ∧
    (∀ chunks, assoc st transfer_id = some chunks →
      assoc chunks chunk_id = none →
      download_chunk st transfer_id chunk_id =
        Except.error ⟨404, chunk_pending_detail chunk_id⟩) ∧
    transfer_not_found_detail transfer_id ≠ chunk_pending_detail chunk_id := by
  refine ⟨?_, ?_, ?_, detail_strings_distinct transfer_id chunk_id⟩
  · intro chunks bytes h1 h2
    simp [download_chunk, h1, h2]
  · intro h1
    simp [download_chunk, h1]
  · intro chunks h1 h2
    simp [download_chunk, h1, h2]

theorem download_chunk_distinguishes_reasons_witness :
    assoc ([("t1", [(0, [42])])] : RelayState) "t1" = some [(0, [42])] ∧
    assoc ([(0, [42])] : List (Nat × List Nat)) 0 = some [42] ∧
    download_chunk [("t1", [(0, [42])])] "t1" 0 = Except.ok [42] :=
  ⟨by decide, by decide,
    (download_chunk_distinguishes_reasons [("t1", [(0, [42])])] "t1" 0).1
      [(0, [42])] [42] (by decide) (by decide)⟩

/-- Claim C10: for an existing transfer the store accepts any payload of
any length without consulting the manifest, stores it verbatim
(overwriting any earlier body for that chunk id), and answers with the
digest and the length of exactly the received bytes. -/
theorem upload_chunk_stores_verbatim (sha256 : List Nat → String)
    (st : RelayState) (transfer_id : String) (chunk_id : Nat)
    (content : List Nat) (chunks : List (Nat × List Nat))
    (h : assoc st transfer_id = some chunks) :
    upload_chunk sha256 st transfer_id chunk_id content =
      Except.ok (assocSet st transfer_id (assocSet chunks chunk_id content),
        ⟨chunk_id, sha256 content, content.length⟩) ∧
    assoc (assocSet st transfer_id (assocSet chunks chunk_id content))
      transfer_id = some (assocSet chunks chunk_id content) ∧
    assoc (assocSet chunks chunk_id content) chunk_id = some content := by
  refine ⟨?_, assoc_assocSet_self _ _ _, assoc_assocSet_self _ _ _⟩
  simp [upload_chunk, upload_chunk_body, wrap_exception, h]

theorem upload_chunk_stores_verbatim_witness :
    assoc ([("t1", [(0, [1])])] : RelayState) "t1" = some [(0, [1])] ∧
    upload_chunk (fun _ => "h") [("t1", [(0, [1])])] "t1" 0 [7, 7] =
      Except.ok ([("t1", [(0, [7, 7]), (0, [1])]), ("t1", [(0, [1])])],
        ⟨0, "h", 2⟩) :=
  ⟨by decide,
    (upload_chunk_stores_verbatim (fun _ => "h") [("t1", [(0, [1])])] "t1" 0
      [7, 7] [(0, [1])] (by decide)).1⟩

/-! Signaling server (src/backend/signaling_server.py).

A pairing-code entry mirrors the stored dict; `M` is the manifest type,
never inspected by the hub.  Live websocket connections are numbered.
`cands` feeds generate_pair_code the successive random 6-digit draws. -/

structure PairEntry (M : Type) where
  transfer_id : String
  manifest : M
  created_at : Nat
  status : String
deriving DecidableEq, Repr

/-- Expiry test of cleanup_expired_codes:
`(now - created_at).total_seconds() > PAIR_CODE_EXPIRY`. -/
def is_expired {M : Type} (now : Nat) (e : PairEntry M) : Bool :=
  PAIR_CODE_EXPIRY < now - e.created_at

/-- cleanup_expired_codes: drop expired codes from the table and their
rooms, returning the number removed. -/
def cleanup_expired_codes {M : Type} (now : Nat)
    (pair_codes : List (String × PairEntry M))
    (rooms : List (String × List (String × Nat))) :
    List (String × PairEntry M) × List (String × List (String × Nat)) × Nat :=
  let expired := (pair_codes.filter (fun p => is_expired now p.2)).map Prod.fst
  (pair_codes.filter (fun p => ! is_expired now p.2),
   rooms.filter (fun r => ! expired.contains r.1),
   expired.length)

/-- generate_pair_code: draw random codes until one is not a key of
pair_codes; the stream of draws is explicit and exhaustion of the finite
stream stands for nontermination of the unbounded loop. -/
def generate_pair_code {M : Type} (cands : List String)
    (pair_codes : List (String × PairEntry M)) : Option String :=
  cands.find? (fun c => (assoc pair_codes c).isNone)

/-- Result of a successful create_pair_code call: the returned code and
the two tables after the call. -/
structure CreatePairResult (M : Type) where
  pair_code : String
  pair_codes : List (String × PairEntry M)
  rooms : List (String × List (String × Nat))
deriving DecidableEq, Repr

/-- create_pair_code endpoint: purge expired codes, generate a fresh
code, store it with status waiting and the creation time. -/
def create_pair_code {M : Type} (now : Nat) (cands : List String)
    (pair_codes : List (String × PairEntry M))
    (rooms : List (String × List (String × Nat)))
    (transfer_id : String) (manifest : M) :
    Option (CreatePairResult M) :=
  let cleaned := cleanup_expired_codes now pair_codes rooms
  match generate_pair_code cands cleaned.1 with
  | none => none
  | some code =>
    some ⟨code,
      assocSet cleaned.1 code ⟨transfer_id, manifest, now, "waiting"⟩,
      cleaned.2.1⟩

theorem assoc_filter_of_keep {κ α : Type} [DecidableEq κ] (p : κ × α → Bool) :
    ∀ (l : List (κ × α)) (k : κ) (v : α), assoc l k = some v →
      p (k, v) = true → assoc (l.filter p) k = some v := by
  intro l
  induction l with
  | nil => intro k v h _; cases h
  | cons kv rest ih =>
    intro k v h hp
    obtain ⟨k', v'⟩ := kv
    by_cases hk : k = k'
    · subst hk
      rw [assoc, if_pos rfl] at h
      obtain rfl : v' = v := Option.some.inj h
      rw [List.filter_cons, if_pos hp]
      rw [assoc, if_pos rfl]
    · rw [assoc, if_neg hk] at h
      rw [List.filter_cons]
      by_cases hkeep : p (k', v') = true
      · rw [if_pos hkeep, assoc, if_neg hk]
        exact ih k v h hp
      · rw [if_neg hkeep]
        exact ih k v h hp

/-- Claim C7: create_pair_code purges expired codes first and then only
returns a code that is no key of the purged table, so the returned code
collides with no entry of the original table that is still live at
`now`; the code is stored with status waiting. -/
theorem pair_code_no_live_collision {M : Type} (now : Nat) (cands : List String)
    (pair_codes : List (String × PairEntry M))
    (rooms : List (String × List (String × Nat)))
    (transfer_id : String) (manifest : M) (res : CreatePairResult M)
    (h : create_pair_code now cands pair_codes rooms transfer_id manifest =
      some res) :
    (∀ c e, assoc pair_codes c = some e → is_expired now e = false →
      res.pair_code ≠ c) ∧
    assoc res.pair_codes res.pair_code =
      some ⟨transfer_id, manifest, now, "waiting"⟩ := by
  simp only [create_pair_code] at h
  rcases hg : generate_pair_code cands
      ((cleanup_expired_codes now pair_codes rooms).1) with _ | c0
  · rw [hg] at h
    cases h
  · rw [hg] at h
    obtain rfl : CreatePairResult.mk c0
        (assocSet (cleanup_expired_codes now pair_codes rooms).1 c0
          ⟨transfer_id, manifest, now, "waiting"⟩)
        ((cleanup_expired_codes now pair_codes rooms).2.1) = res :=
      Option.some.inj h
    have hfresh : assoc ((cleanup_expired_codes now pair_codes rooms).1) c0 = none := by
      have := List.find?_some hg
      simpa [Option.isNone_iff_eq_none] using this
    constructor
    · intro c e hce hlive heq
      have heq' : c0 = c := heq
      subst heq'
      have hkept : assoc ((cleanup_expired_codes now pair_codes rooms).1) c0 =
          some e := by
        simp only [cleanup_expired_codes]
        exact assoc_filter_of_keep _ pair_codes c0 e hce (by simp [hlive])
      rw [hfresh] at hkept
      cases hkept
    · exact assoc_assocSet_self _ _ _

theorem pair_code_no_live_collision_witness :
    create_pair_code 10 ["123456"]
        [("654321", PairEntry.mk "t0" (0 : Nat) 0 "waiting")] [] "t1" 5 =
      some (CreatePairResult.mk "123456"
        [("123456", PairEntry.mk "t1" 5 10 "waiting"),
         ("654321", PairEntry.mk "t0" 0 0 "waiting")] []) ∧
    assoc [("123456", PairEntry.mk "t1" (5 : Nat) 10 "waiting"),
        ("654321", PairEntry.mk "t0" 0 0 "waiting")] "123456" =
      some (PairEntry.mk "t1" 5 10 "waiting") :=
  ⟨by decide,
    (pair_code_no_live_collision 10 ["123456"]
      [("654321", PairEntry.mk "t0" (0 : Nat) 0 "waiting")] [] "t1" 5
      (CreatePairResult.mk "123456"
        [("123456", PairEntry.mk "t1" 5 10 "waiting"),
         ("654321", PairEntry.mk "t0" 0 0 "waiting")] []) (by decide)).2⟩

/-! The websocket endpoint, connection phase (lines 109-162): accept,
validate the code against mere table membership, validate the role,
register the connection in the room, acknowledge, and when both roles
are now present mark the code paired and notify both sides. -/

inductive Frame (M : Type) where
  | error (message : String)
  | connected (role : String) (pair_code : String)
  | peer_connected (peer_role : String) (manifest : Option M)
deriving DecidableEq, Repr

structure ConnectOutcome (M : Type) where
  sends : List (Nat × Frame M)
  rooms : List (String × List (String × Nat))
  pair_codes : List (String × PairEntry M)
  closed : Bool
deriving DecidableEq, Repr

def websocket_connect {M : Type} (pair_codes : List (String × PairEntry M))
    (rooms : List (String × List (String × Nat))) (code role : String)
    (ws : Nat) : ConnectOutcome M :=
  match assoc pair_codes code with
  | none =>
    ⟨[(ws, Frame.error "Invalid or expired pair code")], rooms, pair_codes, true⟩
  | some entry =>
    if role = "sender" ∨ role = "receiver" then
      let room1 := assocSet ((assoc rooms code).getD []) role ws
      let rooms1 := assocSet rooms code room1
      match assoc room1 "sender", assoc room1 "receiver" with
      | some sender_ws, some receiver_ws =>
        ⟨[(ws, Frame.connected role code),
          (sender_ws, Frame.peer_connected "receiver" none),
          (receiver_ws, Frame.peer_connected "sender" (some entry.manifest))],
         rooms1,
         assocSet pair_codes code
           ⟨entry.transfer_id, entry.manifest, entry.created_at, "paired"⟩,
         false⟩
      | _, _ => ⟨[(ws, Frame.connected role code)], rooms1, pair_codes, false⟩
    else
      ⟨[(ws, Frame.error "Invalid role. Must be sender or receiver")],
       rooms, pair_codes, true⟩

/-- Claim C8 counterexample: a code created at time 0 and looked up at
`PAIR_CODE_EXPIRY + 1` seconds is expired, yet because no purge ran and
the endpoint checks only table membership, the connection is accepted:
it is registered in the room and acknowledged, not refused and closed. -/
theorem connect_expired_code_counterexample :
    is_expired (PAIR_CODE_EXPIRY + 1) (PairEntry.mk "t1" (0 : Nat) 0 "waiting") = true ∧
    websocket_connect [("111111", PairEntry.mk "t1" (0 : Nat) 0 "waiting")] []
        "111111" "sender" 7 =
      ⟨[(7, Frame.connected "sender" "111111")],
       [("111111", [("sender", 7)])],
       [("111111", PairEntry.mk "t1" 0 0 "waiting")],
       false⟩ := by
  decide

/-- Claim C8 (amended): connect sends an error frame and closes, leaving
both tables untouched, exactly when the code is absent from the table
(unknown, or expired and already purged) or the role is invalid; expiry
itself is not checked here, so any code still in the table, expired or
not, is accepted: the connection stays open, is registered in the room
under its role, and is acknowledged first with a connected frame. -/
theorem connect_amended {M : Type} (pair_codes : List (String × PairEntry M))
    (rooms : List (String × List (String × Nat))) (code role : String)
    (ws : Nat) :
    (assoc pair_codes code = none →
      websocket_connect pair_codes rooms code role ws =
        ⟨[(ws, Frame.error "Invalid or expired pair code")],
         rooms, pair_codes, true⟩) ∧
    (∀ e, assoc pair_codes code = some e → role ≠ "sender" → role ≠ "receiver" →
      websocket_connect pair_codes rooms code role ws =
        ⟨[(ws, Frame.error "Invalid role. Must be sender or receiver")],
         rooms, pair_codes, true⟩) ∧
    (∀ e, assoc pair_codes code = some e → (role = "sender" ∨ role = "receiver") →
      (websocket_connect pair_codes rooms code role ws).closed = false ∧
      assoc (websocket_connect pair_codes rooms code role ws).rooms code =
        some (assocSet ((assoc rooms code).getD []) role ws) ∧
      (websocket_connect pair_codes rooms code role ws).sends.head? =
        some (ws, Frame.connected role code)) := by
  refine ⟨?_, ?_, ?_⟩
  · intro h
    simp [websocket_connect, h]
  · intro e h h1 h2
    have hrole : ¬ (role = "sender" ∨ role = "receiver") := by
      rintro (h' | h')
      · exact h1 h'
      · exact h2 h'
    simp [websocket_connect, h, hrole]
  · intro e h hrole
    simp only [websocket_connect, h]
    rw [if_pos hrole]
    rcases hs : assoc (assocSet ((assoc rooms code).getD []) role ws) "sender"
        with _ | sender_ws <;>
      rcases hr : assoc (assocSet ((assoc rooms code).getD []) role ws) "receiver"
        with _ | receiver_ws <;>
      simp [hs, hr, assoc_assocSet_self]

theorem connect_amended_witness :
    assoc ([] : List (String × PairEntry Nat)) "000000" = none ∧
    websocket_connect ([] : List (String × PairEntry Nat)) [] "000000" "sender" 3 =
      ⟨[(3, Frame.error "Invalid or expired pair code")], [], [], true⟩ :=
  ⟨rfl, (connect_amended ([] : List (String × PairEntry Nat)) [] "000000"
    "sender" 3).1 rfl⟩

/-- Claim C9: when one role is already registered in the code's room and
the opposite role connects, the entry's status becomes paired and the
pushed frames are: the acknowledgment to the newcomer, a peer_connected
without manifest to the sender connection, and a peer_connected carrying
the manifest to the receiver connection — so the manifest goes to the
receiver only, never to the sender. -/
theorem peer_connected_manifest_receiver_only {M : Type}
    (pair_codes : List (String × PairEntry M))
    (rooms : List (String × List (String × Nat)))
    (code role : String) (ws peer_ws : Nat) (e : PairEntry M)
    (room0 : List (String × Nat))
    (hpc : assoc pair_codes code = some e)
    (hroom : assoc rooms code = some room0)
    (hrole : role = "sender" ∨ role = "receiver")
    (hopp : assoc room0 (if role = "sender" then "receiver" else "sender") =
      some peer_ws) :
    (websocket_connect pair_codes rooms code role ws).sends =
      [(ws, Frame.connected role code),
       ((if role = "sender" then ws else peer_ws),
         Frame.peer_connected "receiver" none),
       ((if role = "sender" then peer_ws else ws),
         Frame.peer_connected "sender" (some e.manifest))] ∧
    assoc (websocket_connect pair_codes rooms code role ws).pair_codes code =
      some ⟨e.transfer_id, e.manifest, e.created_at, "paired"⟩ := by
  rcases hrole with h | h <;> subst h
  · simp only [if_pos rfl] at hopp
    have hs : assoc (assocSet room0 "sender" ws) "sender" = some ws :=
      assoc_assocSet_self _ _ _
    have hr : assoc (assocSet room0 "sender" ws) "receiver" = some peer_ws := by
      rw [assocSet, assoc, if_neg (by decide)]
      exact hopp
    simp [websocket_connect, hpc, hroom, hs, hr, assoc_assocSet_self]
  · rw [if_neg (show ¬ ("receiver" : String) = "sender" from by decide)] at hopp
    have hr : assoc (assocSet room0 "receiver" ws) "receiver" = some ws :=
      assoc_assocSet_self _ _ _
    have hs : assoc (assocSet room0 "receiver" ws) "sender" = some peer_ws := by
      rw [assocSet, assoc, if_neg (by decide)]
      exact hopp
    simp [websocket_connect, hpc, hroom, hs, hr, assoc_assocSet_self]

theorem peer_connected_manifest_receiver_only_witness :
    (websocket_connect [("222222", PairEntry.mk "t" (5 : Nat) 0 "waiting")]
        [("222222", [("sender", 1)])] "222222" "receiver" 2).sends =
      [(2, Frame.connected "receiver" "222222"),
       (1, Frame.peer_connected "receiver" none),
       (2, Frame.peer_connected "sender" (some 5))] :=
  (peer_connected_manifest_receiver_only
    [("222222", PairEntry.mk "t" (5 : Nat) 0 "waiting")]
    [("222222", [("sender", 1)])] "222222" "receiver" 2 1
    (PairEntry.mk "t" 5 0 "waiting") [("sender", 1)]
    (by decide) (by decide) (Or.inr rfl) (by decide)).1

/-! Transfer engine upload paths (src/engine/transfer_engine.py).

The transport is a function `send chunk_id attempt` giving the outcome
of posting that chunk on that (0-based) attempt; `E` is the error type.
The single-file path wraps every chunk in the
`for attempt in range(MAX_RETRY_ATTEMPTS)` loop, sleeping
`RETRY_DELAY * (attempt + 1)` between attempts; the recorded sleep
amounts are returned alongside the outcome.  The folder path posts each
chunk of each file once, sequentially, with the running global counter
as the relay chunk id. -/

def retry_loop {E : Type} (send : Nat → Nat → Except E Unit) (chunk_id : Nat) :
    Nat → Nat → Except E Unit × List Nat
  | attempt, 0 =>
    match send chunk_id attempt with
    | Except.ok _ => (Except.ok (), [])
    | Except.error e => (Except.error e, [])
  | attempt, fuel' + 1 =>
    match send chunk_id attempt with
    | Except.ok _ => (Except.ok (), [])
    | Except.error _ =>
      let r := retry_loop send chunk_id (attempt + 1) fuel'
      (r.1, RETRY_DELAY * (attempt + 1) :: r.2)

/-- One chunk of the single-file path: attempt 0 with
`MAX_RETRY_ATTEMPTS - 1` retries left. -/
def upload_chunk_with_retry {E : Type} (send : Nat → Nat → Except E Unit)
    (chunk_id : Nat) : Except E Unit × List Nat :=
  retry_loop send chunk_id 0 (MAX_RETRY_ATTEMPTS - 1)

/-- All chunk tasks of the single-file path; `asyncio.gather` fails the
whole call with a chunk-level error as soon as one task exhausts its
retries, condensed here to the first failing id. -/
def upload_chunks_seq {E : Type} (send : Nat → Nat → Except E Unit) :
    List Nat → Except E Unit
  | [] => Except.ok ()
  | c :: rest =>
    match (upload_chunk_with_retry send c).1 with
    | Except.error e => Except.error e
    | Except.ok _ => upload_chunks_seq send rest

def upload_file_chunks {E : Type} (send : Nat → Nat → Except E Unit)
    (total_chunks : Nat) : Except E Unit :=
  upload_chunks_seq send (List.range total_chunks)

/-- One file of the folder path: `k` chunks posted once each at global
ids `start, start+1, ...`, aborting on the first failure. -/
def upload_seq_once {E : Type} (send : Nat → Nat → Except E Unit) :
    Nat → Nat → Except E Unit
  | 0, _ => Except.ok ()
  | k + 1, start =>
    match send start 0 with
    | Except.error e => Except.error e
    | Except.ok _ => upload_seq_once send k (start + 1)

def upload_folder_go {E : Type} (send : Nat → Nat → Except E Unit) :
    List Nat → Nat → Except E Unit
  | [], _ => Except.ok ()
  | fc :: rest, uploaded =>
    match upload_seq_once send fc uploaded with
    | Except.error e => Except.error e
    | Except.ok _ => upload_folder_go send rest (uploaded + fc)

/-- The folder path over the files' totalChunks counts, the global
`uploaded` counter starting at 0. -/
def upload_folder_chunks {E : Type} (send : Nat → Nat → Except E Unit)
    (file_chunk_counts : List Nat) : Except E Unit :=
  upload_folder_go send file_chunk_counts 0

theorem retry_loop_isOk_iff {E : Type} (send : Nat → Nat → Except E Unit)
    (chunk_id : Nat) :
    ∀ fuel attempt, (retry_loop send chunk_id attempt fuel).1 = Except.ok () ↔
      ∃ a, attempt ≤ a ∧ a ≤ attempt + fuel ∧ send chunk_id a = Except.ok () := by
  intro fuel
  induction fuel with
  | zero =>
    intro attempt
    rcases h : send chunk_id attempt with e | u
    · simp only [retry_loop, h]
      constructor
      · intro hc; cases hc
      · rintro ⟨a, h1, h2, h3⟩
        obtain rfl : a = attempt := by omega
        rw [h] at h3
        cases h3
    · simp only [retry_loop, h]
      exact ⟨fun _ => ⟨attempt, Nat.le_refl _, by omega, h⟩, fun _ => trivial⟩
  | succ fuel' ih =>
    intro attempt
    rcases h : send chunk_id attempt with e | u
    · simp only [retry_loop, h]
      rw [ih (attempt + 1)]
      constructor
      · rintro ⟨a, h1, h2, h3⟩
        exact ⟨a, by omega, by omega, h3⟩
      · rintro ⟨a, h1, h2, h3⟩
        refine ⟨a, ?_, by omega, h3⟩
        rcases Nat.eq_or_lt_of_le h1 with rfl | hlt
        · rw [h] at h3; cases h3
        · omega
    · simp only [retry_loop, h]
      exact ⟨fun _ => ⟨attempt, Nat.le_refl _, by omega, h⟩, fun _ => trivial⟩

theorem retry_loop_exhaust {E : Type} (send : Nat → Nat → Except E Unit)
    (chunk_id : Nat) :
    ∀ fuel attempt,
      (∀ a, attempt ≤ a → a ≤ attempt + fuel → ∃ err, send chunk_id a = Except.error err) →
      ∃ e, send chunk_id (attempt + fuel) = Except.error e ∧
        (retry_loop send chunk_id attempt fuel).1 = Except.error e := by
  intro fuel
  induction fuel with
  | zero =>
    intro attempt hall
    obtain ⟨e, he⟩ := hall attempt (Nat.le_refl _) (by omega)
    exact ⟨e, by simpa using he, by simp only [retry_loop, he]⟩
  | succ fuel' ih =>
    intro attempt hall
    obtain ⟨e0, he0⟩ := hall attempt (Nat.le_refl _) (by omega)
    obtain ⟨e, he, hres⟩ := ih (attempt + 1)
      (fun a h1 h2 => hall a (by omega) (by omega))
    refine ⟨e, ?_, ?_⟩
    · have harith : attempt + 1 + fuel' = attempt + (fuel' + 1) := by omega
      rwa [harith] at he
    · simp only [retry_loop, he0]
      exact hres

theorem retry_loop_delays {E : Type} (send : Nat → Nat → Except E Unit)
    (chunk_id : Nat) :
    ∀ fuel attempt, ∃ k, k ≤ fuel ∧
      (retry_loop send chunk_id attempt fuel).2 =
        (List.range' (attempt + 1) k).map (fun n => RETRY_DELAY * n) := by
  intro fuel
  induction fuel with
  | zero =>
    intro attempt
    refine ⟨0, Nat.le_refl _, ?_⟩
    rcases h : send chunk_id attempt with e | u <;> simp [retry_loop, h]
  | succ fuel' ih =>
    intro attempt
    rcases h : send chunk_id attempt with e | u
    · obtain ⟨k, hk, hd⟩ := ih (attempt + 1)
      refine ⟨k + 1, by omega, ?_⟩
      simp only [retry_loop, h, hd]
      rw [List.range'_succ, List.map_cons]
    · exact ⟨0, by omega, by simp [retry_loop, h]⟩

theorem upload_chunks_seq_ok_iff {E : Type} (send : Nat → Nat → Except E Unit) :
    ∀ ids : List Nat, upload_chunks_seq send ids = Except.ok () ↔
      ∀ c ∈ ids, (upload_chunk_with_retry send c).1 = Except.ok () := by
  intro ids
  induction ids with
  | nil => simp [upload_chunks_seq]
  | cons c rest ih =>
    rcases h : (upload_chunk_with_retry send c).1 with e | u
    · simp only [upload_chunks_seq, h]
      constructor
      · intro hc; cases hc
      · intro hall
        have := hall c (List.mem_cons_self c rest)
        rw [h] at this
        cases this
    · simp only [upload_chunks_seq, h]
      rw [ih]
      constructor
      · intro hall d hd
        rcases List.mem_cons.mp hd with rfl | hd'
        · rw [h]
        · exact hall d hd'
      · intro hall d hd
        exact hall d (List.mem_cons_of_mem c hd)

theorem upload_chunks_seq_append_ok {E : Type} (send : Nat → Nat → Except E Unit) :
    ∀ l1 l2 : List Nat, upload_chunks_seq send l1 = Except.ok () →
      upload_chunks_seq send (l1 ++ l2) = upload_chunks_seq send l2 := by
  intro l1
  induction l1 with
  | nil => intro l2 _; rfl
  | cons c rest ih =>
    intro l2 h1
    rcases h : (upload_chunk_with_retry send c).1 with e | u
    · rw [upload_chunks_seq, h] at h1
      cases h1
    · rw [upload_chunks_seq, h] at h1
      rw [List.cons_append, upload_chunks_seq, h]
      exact ih l2 h1

theorem upload_seq_once_ok_iff {E : Type} (send : Nat → Nat → Except E Unit) :
    ∀ k start, upload_seq_once send k start = Except.ok () ↔
      ∀ g, start ≤ g → g < start + k → send g 0 = Except.ok () := by
  intro k
  induction k with
  | zero =>
    intro start
    simp only [upload_seq_once]
    exact ⟨fun _ g h1 h2 => absurd h2 (by omega), fun _ => trivial⟩
  | succ k' ih =>
    intro start
    rcases h : send start 0 with e | u
    · simp only [upload_seq_once, h]
      constructor
      · intro hc; cases hc
      · intro hall
        have := hall start (Nat.le_refl _) (by omega)
        rw [h] at this
        cases this
    · simp only [upload_seq_once, h]
      rw [ih (start + 1)]
      constructor
      · intro hall g h1 h2
        rcases Nat.eq_or_lt_of_le h1 with rfl | hlt
        · simpa using h
        · exact hall g (by omega) (by omega)
      · intro hall g h1 h2
        exact hall g (by omega) (by omega)

theorem upload_seq_once_error {E : Type} (send : Nat → Nat → Except E Unit) :
    ∀ k start g0 e, start ≤ g0 → g0 < start + k →
      (∀ g, start ≤ g → g < g0 → send g 0 = Except.ok ()) →
      send g0 0 = Except.error e →
      upload_seq_once send k start = Except.error e := by
  intro k
  induction k with
  | zero =>
    intro start g0 e h1 h2
    omega
  | succ k' ih =>
    intro start g0 e h1 h2 hpre hfail
    rcases Nat.eq_or_lt_of_le h1 with rfl | hlt
    · simp only [upload_seq_once, hfail]
    · have hok : send start 0 = Except.ok () := hpre start (Nat.le_refl _) hlt
      simp only [upload_seq_once, hok]
      exact ih (start + 1) g0 e (by omega) (by omega)
        (fun g hg1 hg2 => hpre g (by omega) hg2) hfail

theorem upload_folder_go_ok_iff {E : Type} (send : Nat → Nat → Except E Unit) :
    ∀ (counts : List Nat) (start : Nat),
      upload_folder_go send counts start = Except.ok () ↔
      ∀ g, start ≤ g → g < start + counts.sum → send g 0 = Except.ok () := by
  intro counts
  induction counts with
  | nil =>
    intro start
    simp only [upload_folder_go, List.sum_nil]
    exact ⟨fun _ g h1 h2 => absurd h2 (by omega), fun _ => trivial⟩
  | cons fc rest ih =>
    intro start
    rcases h : upload_seq_once send fc start with e | u
    · simp only [upload_folder_go, h]
      constructor
      · intro hc; cases hc
      · intro hall
        have hok : upload_seq_once send fc start = Except.ok () := by
          rw [upload_seq_once_ok_iff]
          intro g h1 h2
          exact hall g h1 (by simp [List.sum_cons]; omega)
        rw [h] at hok
        cases hok
    · have hu : upload_seq_once send fc start = Except.ok () := by
        rw [h]
      simp only [upload_folder_go, h]
      rw [ih (start + fc)]
      rw [upload_seq_once_ok_iff] at hu
      constructor
      · intro hall g h1 h2
        simp only [List.sum_cons] at h2
        by_cases hg : g < start + fc
        · exact hu g h1 hg
        · exact hall g (by omega) (by omega)
      · intro hall g h1 h2
        exact hall g (by omega) (by simp [List.sum_cons]; omega)

theorem upload_folder_go_error {E : Type} (send : Nat → Nat → Except E Unit) :
    ∀ (counts : List Nat) (start g0 : Nat) (e : E), start ≤ g0 →
      g0 < start + counts.sum →
      (∀ g, start ≤ g → g < g0 → send g 0 = Except.ok ()) →
      send g0 0 = Except.error e →
      upload_folder_go send counts start = Except.error e := by
  intro counts
  induction counts with
  | nil =>
    intro start g0 e h1 h2
    simp only [List.sum_nil] at h2
    omega
  | cons fc rest ih =>
    intro start g0 e h1 h2 hpre hfail
    simp only [List.sum_cons] at h2
    by_cases hg : g0 < start + fc
    · have herr : upload_seq_once send fc start = Except.error e :=
        upload_seq_once_error send fc start g0 e h1 hg hpre hfail
      simp only [upload_folder_go, herr]
    · have hok : upload_seq_once send fc start = Except.ok () := by
        rw [upload_seq_once_ok_iff]
        intro g hg1 hg2
        exact hpre g hg1 (by omega)
      simp only [upload_folder_go, hok]
      exact ih (start + fc) g0 e (by omega) (by omega)
        (fun g hg1 hg2 => hpre g (by omega) hg2) hfail

/-- Claim C5 counterexample: a transport failing every chunk's first
attempt and succeeding on the second.  The single-file path retries and
succeeds, but the folder path — which the claim covers alike — performs
no retry at all and fails the upload on the very first chunk error,
even though the chunk succeeds within the attempt cap. -/
theorem folder_upload_no_retry_counterexample :
    upload_folder_chunks
        (fun _ a => if a = 0 then (Except.error "network error" : Except String Unit)
          else Except.ok ()) [1] = Except.error "network error" ∧
    upload_file_chunks
        (fun _ a => if a = 0 then (Except.error "network error" : Except String Unit)
          else Except.ok ()) 1 = Except.ok () ∧
    1 < MAX_RETRY_ATTEMPTS :=
  ⟨rfl, rfl, by decide⟩

/-- Claim C5 (amended): in the single-file path every chunk is retried
up to MAX_RETRY_ATTEMPTS with sleeps RETRY_DELAY * attemptNumber
(linearly increasing) between attempts — the upload succeeds iff every
chunk succeeds within the cap, and a chunk exhausting its attempts fails
the whole upload with that chunk's last error.  The folder path instead
posts each chunk once, sequentially: it succeeds iff every first attempt
succeeds, and the first failing chunk's error fails the whole upload
immediately, with no retry and no worker pool. -/
theorem upload_retry_amended {E : Type} (send : Nat → Nat → Except E Unit)
    (total : Nat) (counts : List Nat) :
    (upload_file_chunks send total = Except.ok () ↔
      ∀ c, c < total → ∃ a, a < MAX_RETRY_ATTEMPTS ∧ send c a = Except.ok ()) ∧
    (∀ c, c < total →
      (∀ c', c' < c → ∃ a, a < MAX_RETRY_ATTEMPTS ∧ send c' a = Except.ok ()) →
      (∀ a, a < MAX_RETRY_ATTEMPTS → ∃ err, send c a = Except.error err) →
      ∃ e, upload_file_chunks send total = Except.error e ∧
        send c (MAX_RETRY_ATTEMPTS - 1) = Except.error e) ∧
    (∀ c, ∃ k, k ≤ MAX_RETRY_ATTEMPTS - 1 ∧
      (upload_chunk_with_retry send c).2 =
        (List.range' 1 k).map (fun n => RETRY_DELAY * n)) ∧
    (upload_folder_chunks send counts = Except.ok () ↔
      ∀ g, g < counts.sum → send g 0 = Except.ok ()) ∧
    (∀ g0 e, g0 < counts.sum → (∀ g, g < g0 → send g 0 = Except.ok ()) →
      send g0 0 = Except.error e →
      upload_folder_chunks send counts = Except.error e) := by
  have hM : MAX_RETRY_ATTEMPTS = 3 := rfl
  have hretry_iff : ∀ c, (upload_chunk_with_retry send c).1 = Except.ok () ↔
      ∃ a, a < MAX_RETRY_ATTEMPTS ∧ send c a = Except.ok () := by
    intro c
    rw [upload_chunk_with_retry, retry_loop_isOk_iff]
    constructor
    · rintro ⟨a, h1, h2, h3⟩
      exact ⟨a, by omega, h3⟩
    · rintro ⟨a, h1, h3⟩
      exact ⟨a, by omega, by omega, h3⟩
  refine ⟨?_, ?_, ?_, ?_, ?_⟩
  · rw [upload_file_chunks, upload_chunks_seq_ok_iff]
    constructor
    · intro hall c hc
      exact (hretry_iff c).1 (hall c (List.mem_range.mpr hc))
    · intro hall c hc
      exact (hretry_iff c).2 (hall c (List.mem_range.mp hc))
  · intro c hc hpre hfail
    obtain ⟨e, hsend, hres⟩ := retry_loop_exhaust send c (MAX_RETRY_ATTEMPTS - 1) 0
      (fun a h1 h2 => hfail a (by omega))
    refine ⟨e, ?_, by simpa using hsend⟩
    have hsplit : List.range total =
        List.range' 0 c ++ (c :: List.range' (c + 1) (total - c - 1)) := by
      rw [List.range_eq_range']
      have h1 : List.range' 0 c ++ List.range' (0 + c) (total - c) =
          List.range' 0 ((total - c) + c) := List.range'_append_1 0 c (total - c)
      have h2 : total - c + c = total := by omega
      have h3 : List.range' (0 + c) (total - c) =
          c :: List.range' (c + 1) (total - c - 1) := by
        rw [show total - c = (total - c - 1) + 1 from by omega, List.range'_succ]
        simp
      rw [h2] at h1
      rw [← h1, h3]
    rw [upload_file_chunks, hsplit,
      upload_chunks_seq_append_ok send _ _ (by
        rw [upload_chunks_seq_ok_iff]
        intro d hd
        rw [List.mem_range'_1] at hd
        exact (hretry_iff d).2 (hpre d (by omega)))]
    have hres' : (upload_chunk_with_retry send c).1 = Except.error e := hres
    simp only [upload_chunks_seq, hres']
  · intro c
    obtain ⟨k, hk, hd⟩ := retry_loop_delays send c (MAX_RETRY_ATTEMPTS - 1) 0
    exact ⟨k, hk, by simpa using hd⟩
  · rw [upload_folder_chunks, upload_folder_go_ok_iff]
    constructor
    · intro hall g hg
      exact hall g (Nat.zero_le _) (by omega)
    · intro hall g _ hg
      exact hall g (by omega)
  · intro g0 e h1 hpre hfail
    exact upload_folder_go_error send counts 0 g0 e (Nat.zero_le _) (by omega)
      (fun g _ hg => hpre g hg) hfail

theorem upload_retry_amended_witness :
    upload_folder_chunks (fun _ _ => (Except.ok () : Except String Unit)) [2, 1] =
      Except.ok () :=
  (upload_retry_amended (fun _ _ => (Except.ok () : Except String Unit))
    0 [2, 1]).2.2.2.1.mpr (fun _ _ => rfl)

end Send
